import Mathlib

/-!
# MartinaAI SDK — verification of the specification against `src/main.py`

Shallow embedding of the pure/logical core of the MartinaAI single-file SDK:
unit conversion (`format_amount` / `parse_amount`, built on Python's
`decimal.Decimal` default context: 28 significant digits, ROUND_HALF_EVEN),
slippage arithmetic, order-parameter validation (including a faithful model of
CPython's `int(s, 16)` acceptance for ASCII strings), the retry wrapper, batch
order fetch, and the place/execute submission pipeline over an abstract
network/signing capability.

Machine integers in the source are Python arbitrary-precision `int`s, so they
are modelled as `Nat` / `Int` with no wrap-around.  Raised exceptions are
modelled with `Except` / `Option`; sleeps and network effects are modelled as
explicit traces.
-/

namespace MartinaAI

/-! ## Constants (src/main.py lines 34-41) -/

def MARTINA_BPS_DENOM : Int := 10000

def MARTINA_MAX_SLIPPAGE_BPS : Int := 100

def DEFAULT_DEADLINE_OFFSET_SEC : Int := 600

def DEFAULT_GAS_LIMIT_ORDER : Nat := 400000

def DEFAULT_GAS_LIMIT_SWAP : Nat := 350000

/-! ## Slippage (src/main.py line 243-244)

`def apply_slippage_martina(amount, bps, denom=MARTINA_BPS_DENOM): return
amount * (denom - bps) // denom`.  Python `//` on ints is floor division,
which is `Int.fdiv` in Lean. -/

def apply_slippage_martina (amount bps : Int) (denom : Int) : Int :=
  Int.fdiv (amount * (denom - bps)) denom

/-- C2: for non-negative `amount` and `bps ∈ [0, 100]`,
`apply_slippage_martina` (at the default denominator 10000) equals
`amount * (10000 - bps)` divided by `10000` with truncation toward zero;
consequently it never exceeds `amount`, and at `bps = 0` it is the identity. -/
theorem apply_slippage_martina_spec (amount bps : Int)
    (hamount : 0 ≤ amount) (hbps0 : 0 ≤ bps) (hbps : bps ≤ 100) :
    apply_slippage_martina amount bps MARTINA_BPS_DENOM
      = Int.tdiv (amount * (10000 - bps)) 10000 ∧
    apply_slippage_martina amount bps MARTINA_BPS_DENOM ≤ amount ∧
    apply_slippage_martina amount 0 MARTINA_BPS_DENOM = amount := by
  have hnum : 0 ≤ amount * (10000 - bps) :=
    mul_nonneg hamount (by omega)
  have hfe : ∀ a : Int, Int.fdiv a 10000 = a / 10000 := fun a =>
    Int.fdiv_eq_ediv a (by norm_num)
  refine ⟨?_, ?_, ?_⟩
  · rw [apply_slippage_martina, MARTINA_BPS_DENOM, hfe,
      Int.tdiv_eq_ediv hnum (by norm_num)]
  · rw [apply_slippage_martina, MARTINA_BPS_DENOM, hfe]
    calc amount * (10000 - bps) / 10000
        ≤ amount * 10000 / 10000 := by
          apply Int.ediv_le_ediv (by norm_num)
          exact mul_le_mul_of_nonneg_left (by omega) hamount
      _ = amount := Int.mul_ediv_cancel amount (by norm_num)
  · rw [apply_slippage_martina, MARTINA_BPS_DENOM, hfe]
    simp [Int.mul_ediv_cancel amount]

/-- Witness for `apply_slippage_martina_spec` at `amount = 997`, `bps = 30`. -/
theorem apply_slippage_martina_spec_witness :
    apply_slippage_martina 997 30 MARTINA_BPS_DENOM
      = Int.tdiv (997 * (10000 - 30)) 10000 ∧
    apply_slippage_martina 997 30 MARTINA_BPS_DENOM ≤ 997 ∧
    apply_slippage_martina 997 0 MARTINA_BPS_DENOM = 997 :=
  apply_slippage_martina_spec 997 30 (by norm_num) (by norm_num) (by norm_num)

/-! ## Retry wrapper (src/main.py lines 487-502)

```python
def with_retry_martina(fn, max_attempts=3, delay=1.0, backoff=2.0,
                       exceptions=(Exception,)):
    last_err = None
    for attempt in range(max_attempts):
        try:
            return fn()
        except exceptions as e:
            last_err = e
            if attempt < max_attempts - 1:
                time.sleep(delay * (backoff ** attempt))
    raise last_err
```

`fn` is modelled as a map from the 0-indexed attempt number to the outcome of
that call; an exception matching the `exceptions` tuple is one with
`retryable e = true`.  The result records the value returned or the exception
raised (`Except.error none` is the final `raise last_err` with `last_err`
still `None`, which in Python is a `TypeError`), the number of calls made to
`fn`, and the sleep durations in order.  Sleep durations are modelled with
exact rationals in place of Python floats. -/

structure RetryTrace (ε α : Type) where
  result : Except (Option ε) α
  calls : Nat
  sleeps : List ℚ

/-- The loop `for attempt in range(max_attempts)`, structurally recursing on
the number of remaining iterations.  On the last iteration a caught exception
is re-raised by `raise last_err` with no sleep; an exception the `except`
clause does not match propagates at once. -/
def with_retry_go {ε α : Type} (fn : Nat → Except ε α) (retryable : ε → Bool)
    (delay backoff : ℚ) : Nat → Nat → RetryTrace ε α
  | 0, _ => ⟨.error none, 0, []⟩
  | remaining + 1, attempt =>
    match fn attempt with
    | .ok v => ⟨.ok v, 1, []⟩
    | .error e =>
      if retryable e then
        match remaining with
        | 0 => ⟨.error (some e), 1, []⟩
        | r + 1 =>
          let rest := with_retry_go fn retryable delay backoff (r + 1) (attempt + 1)
          ⟨rest.result, rest.calls + 1, delay * backoff ^ attempt :: rest.sleeps⟩
      else ⟨.error (some e), 1, []⟩

/-- `with_retry_martina`: `max_attempts` is a Python `int`; `range` iterates
`max_attempts.toNat` times (zero for non-positive values). -/
def with_retry_martina {ε α : Type} (fn : Nat → Except ε α) (retryable : ε → Bool)
    (max_attempts : Int) (delay backoff : ℚ) : RetryTrace ε α :=
  with_retry_go fn retryable delay backoff max_attempts.toNat 0

lemma retry_sleep_shift (delay backoff : ℚ) (a : Nat) :
    ((fun j => delay * backoff ^ (a + j)) ∘ Nat.succ)
      = fun j => delay * backoff ^ (a + 1 + j) := by
  funext j
  simp only [Function.comp_apply]
  have h : a + Nat.succ j = a + 1 + j := by omega
  rw [h]

lemma with_retry_go_calls_le {ε α : Type} (fn : Nat → Except ε α)
    (retryable : ε → Bool) (delay backoff : ℚ) :
    ∀ n a, (with_retry_go fn retryable delay backoff n a).calls ≤ n := by
  intro n
  induction n with
  | zero => intro a; simp [with_retry_go]
  | succ m ih =>
    intro a
    rw [with_retry_go]
    cases hfn : fn a with
    | ok v => simp
    | error e =>
      by_cases hr : retryable e = true
      · cases m with
        | zero => simp [hr]
        | succ r =>
          simp only [hr, if_pos]
          simpa using ih (a + 1)
      · simp [hr]

lemma with_retry_go_success {ε α : Type} (fn : Nat → Except ε α)
    (retryable : ε → Bool) (delay backoff : ℚ) (v : α) :
    ∀ k n a, k < n →
      (∀ j < k, ∃ e, fn (a + j) = .error e ∧ retryable e = true) →
      fn (a + k) = .ok v →
      with_retry_go fn retryable delay backoff n a
        = ⟨.ok v, k + 1, (List.range k).map fun j => delay * backoff ^ (a + j)⟩ := by
  intro k
  induction k with
  | zero =>
    intro n a hn _ hok
    obtain ⟨m, rfl⟩ := Nat.exists_eq_succ_of_ne_zero (by omega : n ≠ 0)
    rw [with_retry_go]
    simp only [Nat.add_zero] at hok
    simp [hok]
  | succ k ih =>
    intro n a hn hfail hok
    obtain ⟨m, rfl⟩ := Nat.exists_eq_succ_of_ne_zero (by omega : n ≠ 0)
    obtain ⟨r, rfl⟩ := Nat.exists_eq_succ_of_ne_zero (by omega : m ≠ 0)
    obtain ⟨e, he, hr⟩ := hfail 0 (by omega)
    rw [with_retry_go]
    simp only [Nat.add_zero] at he
    rw [he]
    simp only [hr, if_pos]
    rw [ih (r + 1) (a + 1) (by omega)
      (fun j hj => by simpa [Nat.add_assoc, Nat.add_comm 1 j] using hfail (j + 1) (by omega))
      (by simpa [Nat.add_assoc, Nat.add_comm 1 k] using hok)]
    simp only [List.range_succ_eq_map, List.map_cons, List.map_map,
      retry_sleep_shift, Nat.add_zero]

lemma with_retry_go_exhaust {ε α : Type} (fn : Nat → Except ε α)
    (retryable : ε → Bool) (delay backoff : ℚ) :
    ∀ n a, 1 ≤ n →
      (∀ j < n, ∃ e, fn (a + j) = .error e ∧ retryable e = true) →
      ∃ e, fn (a + (n - 1)) = .error e ∧
        with_retry_go fn retryable delay backoff n a
          = ⟨.error (some e), n, (List.range (n - 1)).map fun j => delay * backoff ^ (a + j)⟩ := by
  intro n
  induction n with
  | zero => omega
  | succ m ih =>
    intro a _ hfail
    obtain ⟨e0, he0, hr0⟩ := hfail 0 (by omega)
    simp only [Nat.add_zero] at he0
    cases m with
    | zero =>
      refine ⟨e0, by simpa using he0, ?_⟩
      rw [with_retry_go, he0]
      simp [hr0]
    | succ r =>
      obtain ⟨e, he, hgo⟩ := ih (a + 1) (by omega)
        (fun j hj => by simpa [Nat.add_assoc, Nat.add_comm 1 j] using hfail (j + 1) (by omega))
      refine ⟨e, by simpa [Nat.add_assoc, Nat.add_comm 1 r] using he, ?_⟩
      rw [with_retry_go, he0]
      simp only [hr0, if_pos]
      rw [hgo]
      simp only [Nat.succ_sub_one, List.range_succ_eq_map, List.map_cons,
        List.map_map, retry_sleep_shift, Nat.add_zero]

lemma with_retry_go_propagate {ε α : Type} (fn : Nat → Except ε α)
    (retryable : ε → Bool) (delay backoff : ℚ) (e : ε) :
    ∀ k n a, k < n →
      (∀ j < k, ∃ e', fn (a + j) = .error e' ∧ retryable e' = true) →
      fn (a + k) = .error e → retryable e = false →
      with_retry_go fn retryable delay backoff n a
        = ⟨.error (some e), k + 1, (List.range k).map fun j => delay * backoff ^ (a + j)⟩ := by
  intro k
  induction k with
  | zero =>
    intro n a hn _ herr hnr
    obtain ⟨m, rfl⟩ := Nat.exists_eq_succ_of_ne_zero (by omega : n ≠ 0)
    rw [with_retry_go]
    simp only [Nat.add_zero] at herr
    rw [herr]
    simp [hnr]
  | succ k ih =>
    intro n a hn hfail herr hnr
    obtain ⟨m, rfl⟩ := Nat.exists_eq_succ_of_ne_zero (by omega : n ≠ 0)
    obtain ⟨r, rfl⟩ := Nat.exists_eq_succ_of_ne_zero (by omega : m ≠ 0)
    obtain ⟨e0, he0, hr0⟩ := hfail 0 (by omega)
    rw [with_retry_go]
    simp only [Nat.add_zero] at he0
    rw [he0]
    simp only [hr0, if_pos]
    rw [ih (r + 1) (a + 1) (by omega)
      (fun j hj => by simpa [Nat.add_assoc, Nat.add_comm 1 j] using hfail (j + 1) (by omega))
      (by simpa [Nat.add_assoc, Nat.add_comm 1 k] using herr) hnr]
    simp only [List.range_succ_eq_map, List.map_cons, List.map_map,
      retry_sleep_shift, Nat.add_zero]

/-- C5: `with_retry_martina` calls the operation at most `max_attempts` times;
if the k-th call (1-indexed, k < max_attempts) fails with a retryable
exception it sleeps `delay * backoff ^ (k-1)` before the next call; it returns
the first successful result; if all attempts fail it re-raises the last
captured exception; a non-retryable exception propagates immediately after
its call, with no further calls and no further sleeps.  In particular an
operation failing twice then succeeding under `max_attempts = 3` yields the
success value after sleeping exactly `delay` then `delay * backoff`. -/
theorem with_retry_martina_spec :
    (∀ (ε α : Type) (fn : Nat → Except ε α) (retryable : ε → Bool)
        (max_attempts : Int) (delay backoff : ℚ),
      (with_retry_martina fn retryable max_attempts delay backoff).calls
        ≤ max_attempts.toNat) ∧
    (∀ (ε α : Type) (fn : Nat → Except ε α) (retryable : ε → Bool)
        (max_attempts : Int) (delay backoff : ℚ) (k : Nat) (v : α),
      k < max_attempts.toNat →
      (∀ j < k, ∃ e, fn j = .error e ∧ retryable e = true) →
      fn k = .ok v →
      with_retry_martina fn retryable max_attempts delay backoff
        = ⟨.ok v, k + 1, (List.range k).map fun j => delay * backoff ^ j⟩) ∧
    (∀ (ε α : Type) (fn : Nat → Except ε α) (retryable : ε → Bool)
        (max_attempts : Int) (delay backoff : ℚ),
      1 ≤ max_attempts.toNat →
      (∀ j < max_attempts.toNat, ∃ e, fn j = .error e ∧ retryable e = true) →
      ∃ e, fn (max_attempts.toNat - 1) = .error e ∧
        with_retry_martina fn retryable max_attempts delay backoff
          = ⟨.error (some e), max_attempts.toNat,
              (List.range (max_attempts.toNat - 1)).map fun j => delay * backoff ^ j⟩) ∧
    (∀ (ε α : Type) (fn : Nat → Except ε α) (retryable : ε → Bool)
        (max_attempts : Int) (delay backoff : ℚ) (k : Nat) (e : ε),
      k < max_attempts.toNat →
      (∀ j < k, ∃ e', fn j = .error e' ∧ retryable e' = true) →
      fn k = .error e → retryable e = false →
      with_retry_martina fn retryable max_attempts delay backoff
        = ⟨.error (some e), k + 1, (List.range k).map fun j => delay * backoff ^ j⟩) ∧
    (∀ delay backoff : ℚ,
      with_retry_martina (fun a => if a < 2 then .error 7 else .ok 42)
          (fun _ : Nat => true) 3 delay backoff
        = ⟨.ok 42, 3, [delay, delay * backoff]⟩) := by
  have hzero : ∀ delay backoff : ℚ,
      (fun j => delay * backoff ^ (0 + j)) = fun j : Nat => delay * backoff ^ j := by
    intro delay backoff
    funext j
    rw [Nat.zero_add]
  refine ⟨?_, ?_, ?_, ?_, ?_⟩
  · intro ε α fn retryable max_attempts delay backoff
    exact with_retry_go_calls_le fn retryable delay backoff max_attempts.toNat 0
  · intro ε α fn retryable max_attempts delay backoff k v hk hfail hok
    rw [with_retry_martina,
      with_retry_go_success fn retryable delay backoff v k max_attempts.toNat 0 hk
        (by simpa using hfail) (by simpa using hok), hzero]
  · intro ε α fn retryable max_attempts delay backoff h1 hfail
    obtain ⟨e, he, hgo⟩ := with_retry_go_exhaust fn retryable delay backoff
      max_attempts.toNat 0 h1 (by simpa using hfail)
    refine ⟨e, by simpa using he, ?_⟩
    rw [with_retry_martina, hgo, hzero]
  · intro ε α fn retryable max_attempts delay backoff k e hk hfail herr hnr
    rw [with_retry_martina,
      with_retry_go_propagate fn retryable delay backoff e k max_attempts.toNat 0 hk
        (by simpa using hfail) (by simpa using herr) hnr, hzero]
  · intro delay backoff
    have h := with_retry_go_success
      (fun a => if a < 2 then Except.error 7 else Except.ok 42)
      (fun _ : Nat => true) delay backoff 42 2 3 0 (by norm_num)
      (fun j hj => ⟨7, by interval_cases j <;> norm_num⟩) (by norm_num)
    rw [with_retry_martina, show ((3 : Int)).toNat = 3 from rfl, h]
    norm_num [List.range_succ]

/-- C10: with `max_attempts ≤ 0` the wrapped operation is never invoked and
`with_retry_martina` reaches `raise last_err` with `last_err` still `None`
(modelled as `Except.error none`, Python's resulting `TypeError`), an outcome
distinct from re-raising any exception of the operation itself. -/
theorem with_retry_martina_nonpositive (ε α : Type) (fn : Nat → Except ε α)
    (retryable : ε → Bool) (max_attempts : Int) (delay backoff : ℚ)
    (h : max_attempts ≤ 0) :
    (with_retry_martina fn retryable max_attempts delay backoff).calls = 0 ∧
    (with_retry_martina fn retryable max_attempts delay backoff).result
      = .error none ∧
    ∀ e : ε, (with_retry_martina fn retryable max_attempts delay backoff).result
      ≠ .error (some e) := by
  rw [with_retry_martina, Int.toNat_of_nonpos h, with_retry_go]
  refine ⟨rfl, rfl, ?_⟩
  intro e hcontra
  simp at hcontra

/-- Witness for `with_retry_martina_nonpositive` at `max_attempts = 0`. -/
theorem with_retry_martina_nonpositive_witness :
    (with_retry_martina (fun _ => .ok 5) (fun _ : Nat => true) 0 1 2).calls = 0 ∧
    (with_retry_martina (fun _ => .ok 5) (fun _ : Nat => true) 0 1 2).result
      = (.error none : Except (Option Nat) Nat) ∧
    ∀ e : Nat,
      (with_retry_martina (fun _ => .ok 5) (fun _ : Nat => true) 0 1 2).result
        ≠ .error (some e) :=
  with_retry_martina_nonpositive Nat Nat (fun _ => .ok 5) (fun _ => true) 0 1 2
    (by norm_num)

/-! ## Order data (src/main.py lines 157-180) -/

structure MartinaOrder where
  order_id : Nat
  token_in : String
  token_out : String
  amount_in : Int
  amount_out_min : Int
  deadline : Int
  filled : Bool
  cancelled : Bool
  placed_at_block : Int
  deriving DecidableEq

/-! ## Batch order fetch (src/main.py lines 648-656)

```python
def fetch_all_orders(client):
    count = client.get_order_count()
    out = []
    for i in range(1, count + 1):
        try:
            out.append(client.get_order(i))
        except Exception as e:
            logger.warning("get_order %s failed: %s", i, e)
    return out
```

The client is abstracted to what this function reads from it: the order
counter, and a per-ID read that either returns an order or raises. -/

structure ReadClient (ε : Type) where
  order_count : Nat
  get_order : Nat → Except ε MartinaOrder

/-- The `for i in range(1, count + 1)` loop with its `try/except`: a failed
read is logged and skipped, a successful one is appended to `out`. -/
def fetch_all_orders_go {ε : Type} (get_order : Nat → Except ε MartinaOrder) :
    List Nat → List MartinaOrder → List MartinaOrder
  | [], out => out
  | i :: rest, out =>
    match get_order i with
    | .ok o => fetch_all_orders_go get_order rest (out ++ [o])
    | .error _ => fetch_all_orders_go get_order rest out

def fetch_all_orders {ε : Type} (client : ReadClient ε) : List MartinaOrder :=
  fetch_all_orders_go client.get_order (List.range' 1 client.order_count) []

lemma fetch_all_orders_go_eq {ε : Type} (get_order : Nat → Except ε MartinaOrder) :
    ∀ (l : List Nat) (out : List MartinaOrder),
      fetch_all_orders_go get_order l out
        = out ++ l.filterMap fun i => (get_order i).toOption := by
  intro l
  induction l with
  | nil => intro out; simp [fetch_all_orders_go]
  | cons i rest ih =>
    intro out
    rw [fetch_all_orders_go]
    cases h : get_order i with
    | ok o => simp [ih, h, Except.toOption]
    | error e => simp [ih, h, Except.toOption]

/-- C9: `fetch_all_orders` walks order IDs `1, 2, …, n` in ascending order and
returns exactly the successful reads, in that order; an individual read
failure is skipped and never propagates.  In particular, when reads of IDs 1
and 3 succeed and the read of ID 2 raises, the result is exactly
`[order1, order3]`. -/
theorem fetch_all_orders_spec :
    (∀ (ε : Type) (client : ReadClient ε),
      fetch_all_orders client
        = (List.range' 1 client.order_count).filterMap
            fun i => (client.get_order i).toOption) ∧
    (∀ (ε : Type) (e : ε) (order1 order2 order3 : MartinaOrder),
      fetch_all_orders
          ⟨3, fun i => if i = 1 then .ok order1 else
                       if i = 2 then .error e else
                       if i = 3 then .ok order3 else .ok order2⟩
        = [order1, order3]) := by
  constructor
  · intro ε client
    rw [fetch_all_orders, fetch_all_orders_go_eq]
    simp
  · intro ε e order1 order2 order3
    rw [fetch_all_orders, fetch_all_orders_go_eq]
    simp [List.range', Except.toOption]

/-! ## Address and order-parameter validation (src/main.py lines 664-692)

```python
def is_valid_evm_address_martina(addr):
    if not addr or len(addr) != 42:
        return False
    if addr[:2] != "0x":
        return False
    try:
        int(addr[2:], 16)
        return True
    except ValueError:
        return False
```

The hex check is CPython's `int(s, 16)`, which accepts more than bare hex
digits: it strips surrounding whitespace, then allows an optional sign, an
optional `0x`/`0X` prefix (optionally followed by one underscore), and hex
digits separated by single underscores.  The model below implements these
rules for strings of ASCII characters (CPython additionally accepts a few
non-ASCII Unicode whitespace and digit codepoints, which no 20-byte address
encoding produces). -/

def isAsciiIntWhitespace (c : Char) : Bool :=
  decide (c.toNat = 32 ∨ (9 ≤ c.toNat ∧ c.toNat ≤ 13))

def isHexDigitAscii (c : Char) : Bool :=
  decide ((48 ≤ c.toNat ∧ c.toNat ≤ 57) ∨ (97 ≤ c.toNat ∧ c.toNat ≤ 102) ∨
    (65 ≤ c.toNat ∧ c.toNat ≤ 70))

def dropLeadingIntWs : List Char → List Char
  | [] => []
  | c :: r => if isAsciiIntWhitespace c then dropLeadingIntWs r else c :: r

def dropTrailingIntWs (l : List Char) : List Char :=
  (dropLeadingIntWs l.reverse).reverse

/-- Hex digits after the first one: single underscores are allowed between
digits only (`f_f` yes, `f__f` / `f_` no). -/
def hexTailRest : List Char → Bool
  | [] => true
  | [c] => isHexDigitAscii c
  | c :: c2 :: r =>
    if c = '_' then isHexDigitAscii c2 && hexTailRest r
    else isHexDigitAscii c && hexTailRest (c2 :: r)

/-- At least one hex digit, then `hexTailRest`. -/
def hexDigitsRun : List Char → Bool
  | [] => false
  | c :: r => isHexDigitAscii c && hexTailRest r

/-- After a `0x`/`0X` prefix one underscore may precede the first digit. -/
def hexAfterPrefix : List Char → Bool
  | [] => false
  | c :: r => if c = '_' then hexDigitsRun r else hexDigitsRun (c :: r)

/-- One optional leading `+`/`-`. -/
def stripSign : List Char → List Char
  | [] => []
  | c :: r => if c = '+' ∨ c = '-' then r else c :: r

/-- Does CPython `int(s, 16)` accept the (ASCII) string?  Surrounding
whitespace, an optional sign, an optional `0x`/`0X` prefix, then underscored
hex digits. -/
def pyIntBase16Ok (s : List Char) : Bool :=
  match stripSign (dropTrailingIntWs (dropLeadingIntWs s)) with
  | c0 :: c1 :: r =>
    if c0 = '0' ∧ (c1 = 'x' ∨ c1 = 'X') then hexAfterPrefix r
    else hexDigitsRun (c0 :: c1 :: r)
  | t => hexDigitsRun t

def is_valid_evm_address_martina (addr : List Char) : Bool :=
  if addr.length ≠ 42 then false
  else if addr.take 2 ≠ ['0', 'x'] then false
  else pyIntBase16Ok (addr.drop 2)

/-- The spec's words for C3: a `0x`-prefixed 40-hex-character string.  Used
to compare the claimed predicate with the code's actual check. -/
def isHex40Address (addr : List Char) : Bool :=
  decide (addr.length = 42 ∧ addr.take 2 = ['0', 'x']) &&
    (addr.drop 2).all isHexDigitAscii

inductive ValidationError
  | invalidAddress (field : String)
  | invalidAmount (field : String)
  | expiredDeadline
  deriving DecidableEq

/-- `validate_order_params` (src/main.py lines 676-692); `now` is
`int(time.time())` at the moment of the call.  The `ValueError`s are grouped
by the spec's taxonomy: the two address messages are `InvalidAddress`, the
two amount messages `InvalidAmount`, the deadline one `ExpiredDeadline`. -/
def validate_order_params (token_in token_out : List Char)
    (amount_in amount_out_min deadline now : Int) : Except ValidationError Unit :=
  if is_valid_evm_address_martina token_in = false then
    .error (.invalidAddress "tokenIn")
  else if is_valid_evm_address_martina token_out = false then
    .error (.invalidAddress "tokenOut")
  else if amount_in ≤ 0 then .error (.invalidAmount "amountIn")
  else if amount_out_min < 0 then .error (.invalidAmount "amountOutMin")
  else if deadline ≤ now then .error .expiredDeadline
  else .ok ()

lemma hex_char_facts (c : Char) (h : isHexDigitAscii c = true) :
    isAsciiIntWhitespace c = false ∧ c ≠ '_' ∧ c ≠ '+' ∧ c ≠ '-' ∧
      c ≠ 'x' ∧ c ≠ 'X' := by
  have hn := of_decide_eq_true h
  refine ⟨decide_eq_false ?_, ?_, ?_, ?_, ?_, ?_⟩
  · omega
  all_goals intro heq
  all_goals rw [heq] at hn
  all_goals exact absurd hn (by decide)

lemma hexTailRest_all (r : List Char)
    (h : ∀ c ∈ r, isHexDigitAscii c = true) : hexTailRest r = true := by
  induction r with
  | nil => rfl
  | cons c rest ih =>
    cases rest with
    | nil => simpa [hexTailRest] using h c (by simp)
    | cons c2 r2 =>
      have hc : isHexDigitAscii c = true := h c (by simp)
      rw [hexTailRest, if_neg (hex_char_facts c hc).2.1]
      simp only [Bool.and_eq_true]
      exact ⟨hc, ih fun x hx => h x (by simp at hx ⊢; tauto)⟩

lemma pyIntBase16Ok_of_all_hex (l : List Char) (hne : l ≠ [])
    (hall : ∀ c ∈ l, isHexDigitAscii c = true) : pyIntBase16Ok l = true := by
  obtain ⟨c0, r, rfl⟩ := List.exists_cons_of_ne_nil hne
  have hc0 : isHexDigitAscii c0 = true := hall c0 (by simp)
  have hlead : dropLeadingIntWs (c0 :: r) = c0 :: r := by
    rw [dropLeadingIntWs,
      if_neg (by simp [(hex_char_facts c0 hc0).1] : ¬isAsciiIntWhitespace c0 = true)]
  have htrail : dropTrailingIntWs (c0 :: r) = c0 :: r := by
    obtain ⟨d, t, hrev⟩ := List.exists_cons_of_ne_nil
      (show (c0 :: r).reverse ≠ [] by simp)
    have hd : isHexDigitAscii d = true := by
      refine hall d ?_
      have hm : d ∈ (c0 :: r).reverse := by rw [hrev]; simp
      rw [List.mem_reverse] at hm
      exact hm
    rw [dropTrailingIntWs, hrev, dropLeadingIntWs,
      if_neg (by simp [(hex_char_facts d hd).1] : ¬isAsciiIntWhitespace d = true),
      ← hrev, List.reverse_reverse]
  have hsign : stripSign (c0 :: r) = c0 :: r := by
    rw [stripSign,
      if_neg (by
        rcases hex_char_facts c0 hc0 with ⟨-, -, h1, h2, -, -⟩
        tauto)]
  have hrun : hexDigitsRun (c0 :: r) = true := by
    rw [hexDigitsRun]
    simp only [Bool.and_eq_true]
    exact ⟨hc0, hexTailRest_all r fun x hx => hall x (by simp [hx])⟩
  rw [pyIntBase16Ok, hlead, htrail, hsign]
  cases r with
  | nil => exact hrun
  | cons c1 r2 =>
    have hc1 : isHexDigitAscii c1 = true := hall c1 (by simp)
    change (if c0 = '0' ∧ (c1 = 'x' ∨ c1 = 'X') then hexAfterPrefix r2
      else hexDigitsRun (c0 :: c1 :: r2)) = true
    rw [if_neg (by
      rcases hex_char_facts c1 hc1 with ⟨-, -, -, -, h1, h2⟩
      tauto)]
    exact hrun

/-- C3 (amended): `validate_order_params` fails with `InvalidAddress` exactly
when an address fails the code's check — 42 characters, lowercase `0x`
prefix, and the remaining 40 characters accepted by CPython `int(·, 16)`
(which, beyond plain hex digits, also tolerates a sign, underscores between
digits, surrounding whitespace, or an inner `0x`/`0X` prefix).  Every
`0x`-prefixed 40-hex-character string passes the check.  With both addresses
accepted, it then fails with `InvalidAmount` if `amount_in ≤ 0`, then with
`InvalidAmount` if `amount_out_min < 0`, then with `ExpiredDeadline` if
`deadline ≤ now`; otherwise it succeeds. -/
theorem validate_order_params_spec :
    (∀ (token_in token_out : List Char) (amount_in amount_out_min deadline now : Int),
      (∃ f, validate_order_params token_in token_out amount_in amount_out_min
          deadline now = .error (.invalidAddress f))
        ↔ (is_valid_evm_address_martina token_in = false ∨
           is_valid_evm_address_martina token_out = false)) ∧
    (∀ addr : List Char, isHex40Address addr = true →
      is_valid_evm_address_martina addr = true) ∧
    (∀ (token_in token_out : List Char) (amount_in amount_out_min deadline now : Int),
      is_valid_evm_address_martina token_in = true →
      is_valid_evm_address_martina token_out = true →
      amount_in ≤ 0 →
      validate_order_params token_in token_out amount_in amount_out_min deadline now
        = .error (.invalidAmount "amountIn")) ∧
    (∀ (token_in token_out : List Char) (amount_in amount_out_min deadline now : Int),
      is_valid_evm_address_martina token_in = true →
      is_valid_evm_address_martina token_out = true →
      0 < amount_in → amount_out_min < 0 →
      validate_order_params token_in token_out amount_in amount_out_min deadline now
        = .error (.invalidAmount "amountOutMin")) ∧
    (∀ (token_in token_out : List Char) (amount_in amount_out_min deadline now : Int),
      is_valid_evm_address_martina token_in = true →
      is_valid_evm_address_martina token_out = true →
      0 < amount_in → 0 ≤ amount_out_min → deadline ≤ now →
      validate_order_params token_in token_out amount_in amount_out_min deadline now
        = .error .expiredDeadline) ∧
    (∀ (token_in token_out : List Char) (amount_in amount_out_min deadline now : Int),
      is_valid_evm_address_martina token_in = true →
      is_valid_evm_address_martina token_out = true →
      0 < amount_in → 0 ≤ amount_out_min → now < deadline →
      validate_order_params token_in token_out amount_in amount_out_min deadline now
        = .ok ()) := by
  refine ⟨?_, ?_, ?_, ?_, ?_, ?_⟩
  · intro token_in token_out amount_in amount_out_min deadline now
    rw [validate_order_params]
    by_cases h1 : is_valid_evm_address_martina token_in = false
    · simp [h1]
    · by_cases h2 : is_valid_evm_address_martina token_out = false
      · simp [h1, h2]
      · simp only [h1, h2, if_false]
        split_ifs <;> simp_all
  · intro addr h
    rw [isHex40Address, Bool.and_eq_true, decide_eq_true_eq] at h
    obtain ⟨⟨hlen, htake⟩, hall⟩ := h
    rw [is_valid_evm_address_martina, if_neg (by omega), if_neg (by simp [htake])]
    refine pyIntBase16Ok_of_all_hex _ ?_ ?_
    · have : (addr.drop 2).length = 40 := by simp [hlen]
      intro hcontra
      rw [hcontra] at this
      simp at this
    · simpa using hall
  · intro token_in token_out amount_in amount_out_min deadline now h1 h2 h3
    rw [validate_order_params]
    simp [h1, h2, h3]
  · intro token_in token_out amount_in amount_out_min deadline now h1 h2 h3 h4
    rw [validate_order_params]
    simp [h1, h2, h4, (show ¬amount_in ≤ 0 by omega)]
  · intro token_in token_out amount_in amount_out_min deadline now h1 h2 h3 h4 h5
    rw [validate_order_params]
    simp [h1, h2, h5, (show ¬amount_in ≤ 0 by omega),
      (show ¬amount_out_min < 0 by omega)]
  · intro token_in token_out amount_in amount_out_min deadline now h1 h2 h3 h4 h5
    rw [validate_order_params]
    simp [h1, h2, (show ¬amount_in ≤ 0 by omega),
      (show ¬amount_out_min < 0 by omega), (show ¬deadline ≤ now by omega)]

/-- C3 counterexample to the claim as stated: the 42-character address
`"0x+aaaaaaaaaaaaaaaaaaaaaaaaaaaaaaaaaaaaaaa"` is not a 0x-prefixed
40-hex-character string (its third character is `+`), yet
`validate_order_params` accepts it (CPython `int("+aaa…a", 16)` succeeds), so
the claimed "fails with InvalidAddress if and only if" is false. -/
theorem validate_order_params_claim_counterexample :
    isHex40Address ('0' :: 'x' :: '+' :: List.replicate 39 'a') = false ∧
    validate_order_params ('0' :: 'x' :: '+' :: List.replicate 39 'a')
        ('0' :: 'x' :: List.replicate 40 'a') 1 0 1 0 = .ok () :=
  ⟨by decide, by rfl⟩

/-! ## Signing & submission pipeline (src/main.py lines 277-479)

`place_order` / `execute_order` of `MartinaAIClient`.  The web3 connection,
the contract and the signer are external capabilities; they are abstracted
into `Web3Env` / `LocalAccount` over opaque types `S` (signed payload) and
`H` (transaction hash):

* `botPaused` — the result of `self._contract.functions.botPaused().call()`;
* `send_raw_transaction` — `w3.eth.send_raw_transaction`, yielding a hash;
* `wait_for_transaction_receipt` — `w3.eth.wait_for_transaction_receipt`
  with its 120 s timeout: `none` means no receipt arrived in time, in which
  case web3 raises its timeout error carrying the transaction hash
  (modelled as `MErr.confirmationTimeout`);
* `getOrder` — the `getOrder` contract read decoded into `MartinaOrder`,
  or a raised exception (its message);
* `orderCounter` — the `orderCounter` contract read;
* `to_checksum` — `Web3.to_checksum_address`.

Key resolution via `eth_account` (`Account.from_key`) is external; the
argument `account : Option (LocalAccount S)` is the resolved account, `none`
when neither a key nor an account was supplied.  Every run also returns the
list of signing/submission/secondary-read effects it performed, in order. -/

inductive TxCall
  | placeOrder (token_in token_out : String)
      (amount_in amount_out_min deadline : Int)
  | executeOrder (order_id : Nat)
  | cancelOrder (order_id : Nat)
  deriving DecidableEq

structure UnsignedTx where
  call : TxCall
  gas : Option Nat
  sender : Option String
  deriving DecidableEq

structure TxReceipt where
  status : Int
  blockNumber : Option Int
  gasUsed : Option Int
  deriving DecidableEq

structure LocalAccount (S : Type) where
  address : String
  sign_transaction : UnsignedTx → S

structure Web3Env (S H : Type) where
  botPaused : Bool
  now : Int
  to_checksum : String → String
  send_raw_transaction : S → H
  hashHex : H → String
  wait_for_transaction_receipt : H → Option TxReceipt
  getOrder : Nat → Except String MartinaOrder
  orderCounter : Nat

inductive MErr (H : Type)
  | missingAccount
  | botPaused
  | confirmationTimeout (h : H)

inductive MEvent (H : Type)
  | signed (tx : UnsignedTx)
  | submitted (h : H)
  | orderRead (order_id : Nat)

structure MartinaExecuteResult where
  order_id : Nat
  amount_out : Int
  tx_hash : String
  success : Bool
  block_number : Option Int
  gas_used : Option Int
  deriving DecidableEq

def deadline_from_now (now : Int) (offset_sec : Int) : Int :=
  now + offset_sec

/-- `build_place_order_tx` (src/main.py lines 334-353).  Note Python's
`deadline = deadline or deadline_from_now()` treats both `None` and `0` as
absent. -/
def build_place_order_tx {S H : Type} (env : Web3Env S H)
    (token_in token_out : String) (amount_in amount_out_min : Int)
    (deadline : Option Int) (from_address : Option String)
    (gas_limit : Nat) : UnsignedTx :=
  let dl := match deadline with
    | none => deadline_from_now env.now DEFAULT_DEADLINE_OFFSET_SEC
    | some d =>
      if d = 0 then deadline_from_now env.now DEFAULT_DEADLINE_OFFSET_SEC else d
  { call := .placeOrder (env.to_checksum token_in) (env.to_checksum token_out)
      amount_in amount_out_min dl
    gas := some gas_limit
    sender := from_address.map env.to_checksum }

/-- `build_execute_order_tx` (src/main.py lines 355-365). -/
def build_execute_order_tx {S H : Type} (env : Web3Env S H) (order_id : Nat)
    (from_address : Option String) (gas_limit : Nat) : UnsignedTx :=
  { call := .executeOrder order_id
    gas := some gas_limit
    sender := from_address.map env.to_checksum }

/-- `place_order` (src/main.py lines 398-424): pause precondition, build,
`tx.pop("from")`, sign, broadcast, await the receipt (timeout propagates the
web3 timeout error carrying the hash), then return `get_order_count()`. -/
def place_order {S H : Type} (env : Web3Env S H) (token_in token_out : String)
    (amount_in amount_out_min : Int) (account : Option (LocalAccount S))
    (deadline : Option Int) : Except (MErr H) Nat × List (MEvent H) :=
  match account with
  | none => (.error .missingAccount, [])
  | some acct =>
    if env.botPaused then (.error .botPaused, [])
    else
      let tx := build_place_order_tx env token_in token_out amount_in
        amount_out_min deadline (some acct.address) DEFAULT_GAS_LIMIT_ORDER
      let tx' := { tx with sender := none }
      let signed := acct.sign_transaction tx'
      let txh := env.send_raw_transaction signed
      match env.wait_for_transaction_receipt txh with
      | none => (.error (.confirmationTimeout txh), [.signed tx', .submitted txh])
      | some _ => (.ok env.orderCounter, [.signed tx', .submitted txh])

/-- `execute_order` (src/main.py lines 426-460): pause precondition, build,
`tx.pop("from")`, sign, broadcast, await the receipt; classify success from
`receipt["status"] == 1`; on success attempt the best-effort order re-read to
populate `amount_out` (default 0), swallowing any exception. -/
def execute_order {S H : Type} (env : Web3Env S H) (order_id : Nat)
    (account : Option (LocalAccount S)) :
    Except (MErr H) MartinaExecuteResult × List (MEvent H) :=
  match account with
  | none => (.error .missingAccount, [])
  | some acct =>
    if env.botPaused then (.error .botPaused, [])
    else
      let tx := build_execute_order_tx env order_id (some acct.address)
        DEFAULT_GAS_LIMIT_SWAP
      let tx' := { tx with sender := none }
      let signed := acct.sign_transaction tx'
      let txh := env.send_raw_transaction signed
      match env.wait_for_transaction_receipt txh with
      | none => (.error (.confirmationTimeout txh), [.signed tx', .submitted txh])
      | some receipt =>
        let success := decide (receipt.status = 1)
        let base : MartinaExecuteResult :=
          { order_id := order_id, amount_out := 0, tx_hash := env.hashHex txh,
            success := success, block_number := receipt.blockNumber,
            gas_used := receipt.gasUsed }
        if success then
          match env.getOrder order_id with
          | .ok order =>
            (.ok { base with amount_out := order.amount_out_min },
             [.signed tx', .submitted txh, .orderRead order_id])
          | .error _ =>
            (.ok base, [.signed tx', .submitted txh, .orderRead order_id])
        else
          (.ok base, [.signed tx', .submitted txh])

/-- C8: `place_order` and `execute_order` read the contract's pause flag
before building, signing, or submitting anything; when it is set they fail
at once with the `BotPaused` error (`RuntimeError("MartinaAI bot is
paused")`) and the effect trace is empty — no transaction is signed or
broadcast, so the submission state is unchanged. -/
theorem pause_guard_spec :
    (∀ (S H : Type) (env : Web3Env S H) (token_in token_out : String)
        (amount_in amount_out_min : Int) (acct : LocalAccount S)
        (deadline : Option Int),
      env.botPaused = true →
      place_order env token_in token_out amount_in amount_out_min (some acct)
          deadline
        = (.error .botPaused, [])) ∧
    (∀ (S H : Type) (env : Web3Env S H) (order_id : Nat) (acct : LocalAccount S),
      env.botPaused = true →
      execute_order env order_id (some acct) = (.error .botPaused, [])) := by
  constructor
  · intro S H env token_in token_out amount_in amount_out_min acct deadline hp
    simp [place_order, hp]
  · intro S H env order_id acct hp
    simp [execute_order, hp]

/-- C4: when no receipt arrives within the timeout, the submission workflows
(`execute_order`, `place_order`) fail with the timeout error carrying exactly
the hash that was submitted (the trace's `submitted` event holds the same
hash), and that error is a constructor distinct from every definitive
failure. -/
theorem confirmation_timeout_spec :
    (∀ (S H : Type) (env : Web3Env S H) (order_id : Nat)
        (acct : LocalAccount S) (h : H),
      env.botPaused = false →
      env.send_raw_transaction (acct.sign_transaction
        { build_execute_order_tx env order_id (some acct.address)
            DEFAULT_GAS_LIMIT_SWAP with sender := none }) = h →
      env.wait_for_transaction_receipt h = none →
      execute_order env order_id (some acct)
        = (.error (.confirmationTimeout h),
           [.signed { build_execute_order_tx env order_id (some acct.address)
              DEFAULT_GAS_LIMIT_SWAP with sender := none }, .submitted h])) ∧
    (∀ (S H : Type) (env : Web3Env S H) (token_in token_out : String)
        (amount_in amount_out_min : Int) (acct : LocalAccount S)
        (deadline : Option Int) (h : H),
      env.botPaused = false →
      env.send_raw_transaction (acct.sign_transaction
        { build_place_order_tx env token_in token_out amount_in amount_out_min
            deadline (some acct.address) DEFAULT_GAS_LIMIT_ORDER
            with sender := none }) = h →
      env.wait_for_transaction_receipt h = none →
      place_order env token_in token_out amount_in amount_out_min (some acct)
          deadline
        = (.error (.confirmationTimeout h),
           [.signed { build_place_order_tx env token_in token_out amount_in
              amount_out_min deadline (some acct.address)
              DEFAULT_GAS_LIMIT_ORDER with sender := none }, .submitted h])) ∧
    (∀ (H : Type) (h : H),
      (MErr.confirmationTimeout h ≠ .botPaused ∧
       MErr.confirmationTimeout h ≠ .missingAccount)) := by
  refine ⟨?_, ?_, ?_⟩
  · intro S H env order_id acct h hp hs hw
    subst hs
    simp [execute_order, hp, hw]
  · intro S H env token_in token_out amount_in amount_out_min acct deadline h
      hp hs hw
    subst hs
    simp [place_order, hp, hw]
  · intro H h
    exact And.intro (fun hcontra => nomatch hcontra)
      (fun hcontra => nomatch hcontra)

/-- C6: when `execute_order` obtains a receipt it classifies the outcome from
the receipt's status: status 1 yields `success = true`, status 0 yields
`success = false`; in both cases a normal result carrying the order id, the
transaction hash, the block number and the gas used is returned — a reverted
transaction is a return path, not an exception. -/
theorem execute_order_receipt_classification :
    (∀ (S H : Type) (env : Web3Env S H) (order_id : Nat)
        (acct : LocalAccount S) (h : H) (receipt : TxReceipt),
      env.botPaused = false →
      env.send_raw_transaction (acct.sign_transaction
        { build_execute_order_tx env order_id (some acct.address)
            DEFAULT_GAS_LIMIT_SWAP with sender := none }) = h →
      env.wait_for_transaction_receipt h = some receipt →
      receipt.status = 1 →
      ∃ r : MartinaExecuteResult,
        (execute_order env order_id (some acct)).1 = .ok r ∧
        r.success = true ∧ r.order_id = order_id ∧
        r.tx_hash = env.hashHex h ∧ r.block_number = receipt.blockNumber ∧
        r.gas_used = receipt.gasUsed) ∧
    (∀ (S H : Type) (env : Web3Env S H) (order_id : Nat)
        (acct : LocalAccount S) (h : H) (receipt : TxReceipt),
      env.botPaused = false →
      env.send_raw_transaction (acct.sign_transaction
        { build_execute_order_tx env order_id (some acct.address)
            DEFAULT_GAS_LIMIT_SWAP with sender := none }) = h →
      env.wait_for_transaction_receipt h = some receipt →
      receipt.status = 0 →
      ∃ r : MartinaExecuteResult,
        (execute_order env order_id (some acct)).1 = .ok r ∧
        r.success = false ∧ r.order_id = order_id ∧
        r.tx_hash = env.hashHex h ∧ r.block_number = receipt.blockNumber ∧
        r.gas_used = receipt.gasUsed) := by
  constructor
  · intro S H env order_id acct h receipt hp hs hw hst
    subst hs
    cases hgo : env.getOrder order_id with
    | ok order =>
      have hexec : (execute_order env order_id (some acct)).1 = .ok
          { order_id := order_id, amount_out := order.amount_out_min,
            tx_hash := env.hashHex (env.send_raw_transaction
              (acct.sign_transaction
                { build_execute_order_tx env order_id (some acct.address)
                    DEFAULT_GAS_LIMIT_SWAP with sender := none })),
            success := true, block_number := receipt.blockNumber,
            gas_used := receipt.gasUsed } := by
        simp [execute_order, hp, hw, hst, hgo]
      exact ⟨_, hexec, rfl, rfl, rfl, rfl, rfl⟩
    | error msg =>
      have hexec : (execute_order env order_id (some acct)).1 = .ok
          { order_id := order_id, amount_out := 0,
            tx_hash := env.hashHex (env.send_raw_transaction
              (acct.sign_transaction
                { build_execute_order_tx env order_id (some acct.address)
                    DEFAULT_GAS_LIMIT_SWAP with sender := none })),
            success := true, block_number := receipt.blockNumber,
            gas_used := receipt.gasUsed } := by
        simp [execute_order, hp, hw, hst, hgo]
      exact ⟨_, hexec, rfl, rfl, rfl, rfl, rfl⟩
  · intro S H env order_id acct h receipt hp hs hw hst
    subst hs
    have hexec : (execute_order env order_id (some acct)).1 = .ok
        { order_id := order_id, amount_out := 0,
          tx_hash := env.hashHex (env.send_raw_transaction
            (acct.sign_transaction
              { build_execute_order_tx env order_id (some acct.address)
                  DEFAULT_GAS_LIMIT_SWAP with sender := none })),
          success := false, block_number := receipt.blockNumber,
          gas_used := receipt.gasUsed } := by
      simp [execute_order, hp, hw, hst]
    exact ⟨_, hexec, rfl, rfl, rfl, rfl, rfl⟩

/-- C7: the best-effort secondary order read of `execute_order` happens only
when the receipt status indicates success; any exception it raises is
swallowed, `amount_out` stays at its default of zero, and the overall call
still returns its result. -/
theorem execute_order_secondary_read_spec :
    (∀ (S H : Type) (env : Web3Env S H) (order_id : Nat)
        (acct : LocalAccount S) (h : H) (receipt : TxReceipt),
      env.botPaused = false →
      env.send_raw_transaction (acct.sign_transaction
        { build_execute_order_tx env order_id (some acct.address)
            DEFAULT_GAS_LIMIT_SWAP with sender := none }) = h →
      env.wait_for_transaction_receipt h = some receipt →
      receipt.status ≠ 1 →
      ∀ i, MEvent.orderRead i ∉ (execute_order env order_id (some acct)).2) ∧
    (∀ (S H : Type) (env : Web3Env S H) (order_id : Nat)
        (acct : LocalAccount S) (h : H) (receipt : TxReceipt),
      env.botPaused = false →
      env.send_raw_transaction (acct.sign_transaction
        { build_execute_order_tx env order_id (some acct.address)
            DEFAULT_GAS_LIMIT_SWAP with sender := none }) = h →
      env.wait_for_transaction_receipt h = some receipt →
      receipt.status = 1 →
      MEvent.orderRead order_id ∈ (execute_order env order_id (some acct)).2) ∧
    (∀ (S H : Type) (env : Web3Env S H) (order_id : Nat)
        (acct : LocalAccount S) (h : H) (receipt : TxReceipt) (msg : String),
      env.botPaused = false →
      env.send_raw_transaction (acct.sign_transaction
        { build_execute_order_tx env order_id (some acct.address)
            DEFAULT_GAS_LIMIT_SWAP with sender := none }) = h →
      env.wait_for_transaction_receipt h = some receipt →
      receipt.status = 1 →
      env.getOrder order_id = .error msg →
      ∃ r : MartinaExecuteResult,
        (execute_order env order_id (some acct)).1 = .ok r ∧
        r.amount_out = 0 ∧ r.success = true) := by
  refine ⟨?_, ?_, ?_⟩
  · intro S H env order_id acct h receipt hp hs hw hst i
    subst hs
    simp [execute_order, hp, hw, hst]
  · intro S H env order_id acct h receipt hp hs hw hst
    subst hs
    cases hgo : env.getOrder order_id with
    | ok order => simp [execute_order, hp, hw, hst, hgo]
    | error msg => simp [execute_order, hp, hw, hst, hgo]
  · intro S H env order_id acct h receipt msg hp hs hw hst hgo
    subst hs
    have hexec : (execute_order env order_id (some acct)).1 = .ok
        { order_id := order_id, amount_out := 0,
          tx_hash := env.hashHex (env.send_raw_transaction
            (acct.sign_transaction
              { build_execute_order_tx env order_id (some acct.address)
                  DEFAULT_GAS_LIMIT_SWAP with sender := none })),
          success := true, block_number := receipt.blockNumber,
          gas_used := receipt.gasUsed } := by
      simp [execute_order, hp, hw, hst, hgo]
    exact ⟨_, hexec, rfl, rfl⟩

/-! ## Unit conversion (src/main.py lines 251-256)

```python
def format_amount(amount, decimals):
    return str(Decimal(amount) / (10**decimals))

def parse_amount(amount_human, decimals):
    return int(Decimal(amount_human) * (10**decimals))
```

`decimal.Decimal` under Python's default context: 28 significant digits,
ROUND_HALF_EVEN.  A non-negative finite decimal is a coefficient and an
exponent (value `coeff * 10 ^ exp`); construction from `int` or `str` is
exact, while arithmetic (division, multiplication) rounds to 28 significant
digits.  Strings are modelled as `List Char`.  The integers reachable from
`format_amount` on non-negative inputs keep every value non-negative, so the
unsigned fragment of the `Decimal` grammar is modelled.

The digit helpers use fuel-based structural recursion (fuel 100, enough for
every value below `10 ^ 100`) so that all definitions reduce inside the
kernel. -/

def natDigitsAux : Nat → Nat → List Nat
  | 0, _ => []
  | fuel + 1, n => if n = 0 then [] else n % 10 :: natDigitsAux fuel (n / 10)

/-- Little-endian base-10 digits of `n` (empty for 0), for `n < 10 ^ 100`. -/
def natDigits (n : Nat) : List Nat := natDigitsAux 100 n

def numDigits (n : Nat) : Nat := (natDigits n).length

def ofDigitsLE : List Nat → Nat
  | [] => 0
  | a :: r => a + 10 * ofDigitsLE r

def tzAux : Nat → Nat → Nat
  | 0, _ => 0
  | fuel + 1, n => if n % 10 = 0 then tzAux fuel (n / 10) + 1 else 0

/-- Python's default-context precision, `getcontext().prec`. -/
def DECIMAL_PREC : Nat := 28

structure PyDecimal where
  coeff : Nat
  exp : Int
  deriving DecidableEq

/-- `Decimal(x) / Decimal(10 ** d)` for `x ≥ 0` under the default context.
Writing `x = m * 10 ^ t` with `10 ∤ m`, the exact quotient has the
significant digits of `m`.  When they fit in the precision the result is
exact, with trailing zeros kept so the exponent is as close to the ideal
exponent 0 as possible; otherwise the quotient is rounded to 28 significant
digits with ROUND_HALF_EVEN (with the carry `10^28` renormalised). -/
def decimal_div_pow10 (x d : Nat) : PyDecimal :=
  if x = 0 then ⟨0, 0⟩ else
  let t := tzAux 100 x
  let m := x / 10 ^ t
  let D := numDigits m
  if D ≤ DECIMAL_PREC then
    if d ≤ t then
      if D + (t - d) ≤ DECIMAL_PREC then ⟨m * 10 ^ (t - d), 0⟩
      else ⟨m * 10 ^ (DECIMAL_PREC - D), (t : Int) - d - (DECIMAL_PREC - D)⟩
    else ⟨m, (t : Int) - d⟩
  else
    let drop := D - DECIMAL_PREC
    let q := m / 10 ^ drop
    let r := m % 10 ^ drop
    let half := 10 ^ drop / 2
    let q' := if half < r ∨ (r = half ∧ q % 2 = 1) then q + 1 else q
    if q' = 10 ^ DECIMAL_PREC then
      ⟨10 ^ (DECIMAL_PREC - 1), (t : Int) - d + drop + 1⟩
    else ⟨q', (t : Int) - d + drop⟩

def digitChar : Nat → Char
  | 0 => '0' | 1 => '1' | 2 => '2' | 3 => '3' | 4 => '4'
  | 5 => '5' | 6 => '6' | 7 => '7' | 8 => '8' | _ => '9'

/-- Big-endian decimal digit characters of a coefficient (`"0"` for 0). -/
def decDigitsBE (c : Nat) : List Char :=
  if c = 0 then ['0'] else (natDigits c).reverse.map digitChar

/-- Python `Decimal.__str__` (the spec's to-scientific-string) for
non-negative finite values: plain notation when `exp ≤ 0` and the adjusted
exponent is at least −6, scientific notation (`E`, signed exponent)
otherwise. -/
def decToSciString (a : PyDecimal) : List Char :=
  let ds := decDigitsBE a.coeff
  let L := ds.length
  let adj : Int := a.exp + L - 1
  if a.exp ≤ 0 ∧ -6 ≤ adj then
    if a.exp = 0 then ds
    else
      let f := (-a.exp).toNat
      if f < L then ds.take (L - f) ++ '.' :: ds.drop (L - f)
      else '0' :: '.' :: (List.replicate (f - L) '0' ++ ds)
  else
    (match ds with
     | [] => []
     | [c] => [c]
     | c :: rest => c :: '.' :: rest)
    ++ 'E' :: (if adj < 0 then '-' :: decDigitsBE (-adj).toNat
               else '+' :: decDigitsBE adj.toNat)

def format_amount (amount decimals : Nat) : List Char :=
  decToSciString (decimal_div_pow10 amount decimals)

def charDigitVal (c : Char) : Option Nat :=
  if 48 ≤ c.toNat ∧ c.toNat ≤ 57 then some (c.toNat - 48) else none

/-- Read a run of decimal digits, accumulating the value and the count. -/
def readDigits : List Char → Nat → Nat → Nat × Nat × List Char
  | [], v, n => (v, n, [])
  | c :: cs, v, n =>
    match charDigitVal c with
    | some a => readDigits cs (10 * v + a) (n + 1)
    | none => (v, n, c :: cs)

/-- The exponent part after `E`/`e`: optional sign, at least one digit. -/
def parseExpPart : List Char → Option Int
  | [] => none
  | c :: r =>
    let st : Int × List Char :=
      if c = '-' then (-1, r) else if c = '+' then (1, r) else (1, c :: r)
    let (v, n, rest) := readDigits st.2 0 0
    if 1 ≤ n ∧ rest = [] then some (st.1 * v) else none

/-- `Decimal(s)` for the unsigned plain-numeral fragment of the grammar:
`digits [. digits] [(E|e) [sign] digits]` with at least one coefficient
digit; construction from a string is exact (the context does not apply). -/
def parsePyDecimal (s : List Char) : Option PyDecimal :=
  let (ipart, icnt, r1) := readDigits s 0 0
  match r1 with
  | [] => if 1 ≤ icnt then some ⟨ipart, 0⟩ else none
  | c :: r2 =>
    if c = '.' then
      let (fpart, fcnt, r3) := readDigits r2 0 0
      if 1 ≤ icnt + fcnt then
        match r3 with
        | [] => some ⟨ipart * 10 ^ fcnt + fpart, -(fcnt : Int)⟩
        | c2 :: r4 =>
          if c2 = 'E' ∨ c2 = 'e' then
            (parseExpPart r4).map fun a => ⟨ipart * 10 ^ fcnt + fpart, a - fcnt⟩
          else none
      else none
    else if c = 'E' ∨ c = 'e' then
      if 1 ≤ icnt then (parseExpPart r2).map fun a => ⟨ipart, a⟩ else none
    else none

/-- `Decimal * int` (the other operand converted exactly): the product is
rounded to the context precision with ROUND_HALF_EVEN when its coefficient
exceeds 28 digits. -/
def decimal_mul_pow10 (a : PyDecimal) (d : Nat) : PyDecimal :=
  let p := a.coeff * 10 ^ d
  let D := numDigits p
  if D ≤ DECIMAL_PREC then ⟨p, a.exp⟩
  else
    let drop := D - DECIMAL_PREC
    let q := p / 10 ^ drop
    let r := p % 10 ^ drop
    let half := 10 ^ drop / 2
    let q' := if half < r ∨ (r = half ∧ q % 2 = 1) then q + 1 else q
    if q' = 10 ^ DECIMAL_PREC then ⟨10 ^ (DECIMAL_PREC - 1), a.exp + drop + 1⟩
    else ⟨q', a.exp + drop⟩

/-- `int(Decimal)`: truncation toward zero (here the value is ≥ 0). -/
def int_of_decimal (a : PyDecimal) : Nat :=
  if 0 ≤ a.exp then a.coeff * 10 ^ a.exp.toNat
  else a.coeff / 10 ^ (-a.exp).toNat

def parse_amount (s : List Char) (decimals : Nat) : Option Nat :=
  (parsePyDecimal s).map fun a => int_of_decimal (decimal_mul_pow10 a decimals)

/-! ### Digit machinery lemmas -/

lemma natDigitsAux_val : ∀ (fuel n : Nat), n < 10 ^ fuel →
    ofDigitsLE (natDigitsAux fuel n) = n := by
  intro fuel
  induction fuel with
  | zero => intro n h; simp at h; simp [h, natDigitsAux, ofDigitsLE]
  | succ f ih =>
    intro n h
    rw [natDigitsAux]
    by_cases h0 : n = 0
    · simp [h0, ofDigitsLE]
    · rw [if_neg h0, ofDigitsLE, ih (n / 10) ?_, Nat.mod_add_div]
      rw [Nat.div_lt_iff_lt_mul (by norm_num)]
      calc n < 10 ^ (f + 1) := h
        _ = 10 ^ f * 10 := by ring

lemma natDigitsAux_lt : ∀ (fuel n a : Nat), a ∈ natDigitsAux fuel n → a < 10 := by
  intro fuel
  induction fuel with
  | zero => intro n a h; simp [natDigitsAux] at h
  | succ f ih =>
    intro n a h
    rw [natDigitsAux] at h
    by_cases h0 : n = 0
    · simp [h0] at h
    · rw [if_neg h0] at h
      rcases List.mem_cons.1 h with h1 | h2
      · rw [h1]; exact Nat.mod_lt _ (by norm_num)
      · exact ih _ _ h2

lemma natDigitsAux_len_le_iff : ∀ (fuel n k : Nat), n < 10 ^ fuel →
    ((natDigitsAux fuel n).length ≤ k ↔ n < 10 ^ k) := by
  intro fuel
  induction fuel with
  | zero =>
    intro n k h
    simp at h
    simp [h, natDigitsAux, Nat.pos_pow_of_pos]
  | succ f ih =>
    intro n k h
    rw [natDigitsAux]
    by_cases h0 : n = 0
    · simp [h0, Nat.pos_pow_of_pos]
    · rw [if_neg h0]
      have hdiv : n / 10 < 10 ^ f := by
        rw [Nat.div_lt_iff_lt_mul (by norm_num)]
        calc n < 10 ^ (f + 1) := h
          _ = 10 ^ f * 10 := by ring
      cases k with
      | zero =>
        simp only [List.length_cons, pow_zero]
        omega
      | succ k =>
        simp only [List.length_cons, Nat.succ_le_succ_iff]
        rw [ih (n / 10) k hdiv, Nat.div_lt_iff_lt_mul (by norm_num)]
        constructor
        · intro hlt
          calc n < 10 ^ k * 10 := hlt
            _ = 10 ^ (k + 1) := by ring
        · intro hlt
          calc n < 10 ^ (k + 1) := hlt
            _ = 10 ^ k * 10 := by ring

lemma natDigits_val (n : Nat) (h : n < 10 ^ 100) : ofDigitsLE (natDigits n) = n :=
  natDigitsAux_val 100 n h

lemma natDigits_lt (n a : Nat) (h : a ∈ natDigits n) : a < 10 :=
  natDigitsAux_lt 100 n a h

lemma numDigits_le_iff (n k : Nat) (h : n < 10 ^ 100) :
    numDigits n ≤ k ↔ n < 10 ^ k :=
  natDigitsAux_len_le_iff 100 n k h

lemma numDigits_pos (n : Nat) (h0 : 0 < n) (h : n < 10 ^ 100) :
    0 < numDigits n := by
  by_contra hcontra
  have h1 : numDigits n ≤ 0 := by omega
  rw [numDigits_le_iff n 0 h] at h1
  simp at h1
  omega

lemma pow_numDigits_le (n : Nat) (h0 : 0 < n) (h : n < 10 ^ 100) :
    10 ^ (numDigits n - 1) ≤ n := by
  by_contra hcontra
  have h1 : n < 10 ^ (numDigits n - 1) := by omega
  rw [← numDigits_le_iff n _ h] at h1
  have := numDigits_pos n h0 h
  omega

lemma numDigits_lt_pow (n : Nat) (h : n < 10 ^ 100) : n < 10 ^ numDigits n := by
  rw [← numDigits_le_iff n _ h]

lemma numDigits_mul_pow10 (m k : Nat) (hm : 0 < m) (h : m * 10 ^ k < 10 ^ 100) :
    numDigits (m * 10 ^ k) = numDigits m + k := by
  have hm100 : m < 10 ^ 100 := by
    calc m ≤ m * 10 ^ k := Nat.le_mul_of_pos_right m (Nat.pos_pow_of_pos k (by norm_num))
      _ < 10 ^ 100 := h
  have hub : numDigits (m * 10 ^ k) ≤ numDigits m + k := by
    rw [numDigits_le_iff _ _ h, pow_add]
    exact Nat.mul_lt_mul_of_lt_of_le (numDigits_lt_pow m hm100) (le_refl _)
      (Nat.pos_pow_of_pos k (by norm_num))
  have hlb : ¬ numDigits (m * 10 ^ k) ≤ numDigits m + k - 1 := by
    intro hcontra
    rw [numDigits_le_iff _ _ h] at hcontra
    have hge : 10 ^ (numDigits m - 1) * 10 ^ k ≤ m * 10 ^ k :=
      Nat.mul_le_mul_right _ (pow_numDigits_le m hm hm100)
    rw [← pow_add] at hge
    have hDm := numDigits_pos m hm hm100
    have heq : numDigits m - 1 + k = numDigits m + k - 1 := by omega
    rw [heq] at hge
    omega
  omega

lemma tzAux_spec : ∀ (t fuel m : Nat), ¬(10 ∣ m) → 0 < m →
    m * 10 ^ t < 10 ^ fuel → tzAux fuel (m * 10 ^ t) = t := by
  intro t
  induction t with
  | zero =>
    intro fuel m hnd hm h
    cases fuel with
    | zero => simp at h; omega
    | succ f =>
      rw [pow_zero, mul_one] at h ⊢
      rw [tzAux, if_neg (by omega : ¬m % 10 = 0)]
  | succ t ih =>
    intro fuel m hnd hm h
    cases fuel with
    | zero =>
      simp at h
      have : 0 < m * 10 ^ (t + 1) :=
        Nat.mul_pos hm (Nat.pos_pow_of_pos _ (by norm_num))
      omega
    | succ f =>
      have hmod : m * 10 ^ (t + 1) % 10 = 0 := by
        have : 10 ∣ m * 10 ^ (t + 1) := ⟨m * 10 ^ t, by ring⟩
        omega
      have hdivq : m * 10 ^ (t + 1) / 10 = m * 10 ^ t := by
        rw [show m * 10 ^ (t + 1) = m * 10 ^ t * 10 by ring]
        exact Nat.mul_div_cancel _ (by norm_num)
      rw [tzAux, if_pos hmod, hdivq, ih f m hnd hm ?_]
      rw [← hdivq, Nat.div_lt_iff_lt_mul (by norm_num)]
      calc m * 10 ^ (t + 1) < 10 ^ (f + 1) := h
        _ = 10 ^ f * 10 := by ring

lemma exists_tz_decomp (x : Nat) (hx : 0 < x) :
    ∃ m t, x = m * 10 ^ t ∧ ¬(10 ∣ m) := by
  induction x using Nat.strong_induction_on with
  | _ x ih =>
    by_cases hdvd : 10 ∣ x
    · obtain ⟨y, rfl⟩ := hdvd
      have hy : 0 < y := by omega
      obtain ⟨m, t, rfl, hnd⟩ := ih y (by omega) hy
      exact ⟨m, t + 1, by ring, hnd⟩
    · exact ⟨x, 0, by ring, hdvd⟩

/-- On the claimed domain (`0 < x < 10^28`, `d ≤ 18`) the division is exact:
the result is `⟨c, t' - d⟩` with `c * 10 ^ t' = x`, `t' ≤ d`, and a
coefficient of at most 28 digits. -/
lemma decimal_div_pow10_exact (x d : Nat) (hx : 0 < x) (hx28 : x < 10 ^ 28)
    (hd : d ≤ 18) :
    ∃ c t', t' ≤ d ∧ decimal_div_pow10 x d = ⟨c, (t' : Int) - d⟩ ∧
      c * 10 ^ t' = x ∧ 0 < c ∧ numDigits c ≤ 28 := by
  obtain ⟨m, t, hxe, hnd⟩ := exists_tz_decomp x hx
  have hx100 : x < 10 ^ 100 := by
    calc x < 10 ^ 28 := hx28
      _ ≤ 10 ^ 100 := Nat.pow_le_pow_right (by norm_num) (by norm_num)
  have hm : 0 < m := by
    rcases Nat.eq_zero_or_pos m with h0 | h0
    · rw [h0] at hxe; simp at hxe; omega
    · exact h0
  have htz : tzAux 100 x = t := by
    rw [hxe]; exact tzAux_spec t 100 m hnd hm (hxe ▸ hx100)
  have hquot : x / 10 ^ t = m := by
    rw [hxe]; exact Nat.mul_div_cancel m (Nat.pos_pow_of_pos _ (by norm_num))
  have hmle : m ≤ x := by
    rw [hxe]
    exact Nat.le_mul_of_pos_right m (Nat.pos_pow_of_pos _ (by norm_num))
  have hm100 : m < 10 ^ 100 := by omega
  have hD : numDigits m ≤ 28 := by
    rw [numDigits_le_iff _ _ hm100]; omega
  rw [decimal_div_pow10]
  rw [if_neg (by omega : ¬ x = 0)]
  simp only [htz, hquot, DECIMAL_PREC]
  rw [if_pos hD]
  by_cases hdt : d ≤ t
  · have hceq : m * 10 ^ (t - d) * 10 ^ d = x := by
      rw [mul_assoc, ← pow_add, Nat.sub_add_cancel hdt, ← hxe]
    have hcle : m * 10 ^ (t - d) ≤ x := by
      calc m * 10 ^ (t - d) ≤ m * 10 ^ (t - d) * 10 ^ d :=
            Nat.le_mul_of_pos_right _ (Nat.pos_pow_of_pos _ (by norm_num))
        _ = x := hceq
    have hc100 : m * 10 ^ (t - d) < 10 ^ 100 := by omega
    have hDc : numDigits (m * 10 ^ (t - d)) = numDigits m + (t - d) :=
      numDigits_mul_pow10 m (t - d) hm hc100
    have hcond : numDigits m + (t - d) ≤ 28 := by
      rw [← hDc, numDigits_le_iff _ _ hc100]; omega
    rw [if_pos hdt, if_pos hcond]
    refine ⟨m * 10 ^ (t - d), d, le_refl d, ?_, hceq, ?_, ?_⟩
    · refine congrArg _ ?_
      omega
    · exact Nat.mul_pos hm (Nat.pos_pow_of_pos _ (by norm_num))
    · omega
  · rw [if_neg hdt]
    exact ⟨m, t, by omega, rfl, hxe.symm, hm, hD⟩

/-! ### Rendering and parsing digit runs -/

lemma charDigitVal_digitChar : ∀ a, a < 10 →
    charDigitVal (digitChar a) = some a := by decide

def notDigitStart : List Char → Prop
  | [] => True
  | c :: _ => charDigitVal c = none

lemma readDigits_digits (dl : List Nat) :
    (∀ a ∈ dl, a < 10) → ∀ (rest : List Char) (v n : Nat), notDigitStart rest →
      readDigits (dl.map digitChar ++ rest) v n
        = (List.foldl (fun acc a => 10 * acc + a) v dl, n + dl.length, rest) := by
  induction dl with
  | nil =>
    intro _ rest v n hrest
    cases rest with
    | nil => simp [readDigits]
    | cons c cs =>
      simp only [notDigitStart] at hrest
      simp [readDigits, hrest]
  | cons a dl ih =>
    intro hlt rest v n hrest
    have ha : a < 10 := hlt a (by simp)
    simp only [List.map_cons, List.cons_append, readDigits,
      charDigitVal_digitChar a ha, List.append_eq]
    rw [ih (fun b hb => hlt b (by simp [hb])) rest (10 * v + a) (n + 1) hrest]
    simp only [List.foldl_cons, List.length_cons]
    refine congrArg _ ?_
    refine congrArg₂ _ ?_ rfl
    omega

lemma foldl_step_shift (dl : List Nat) : ∀ v : Nat,
    List.foldl (fun acc a => 10 * acc + a) v dl
      = v * 10 ^ dl.length + List.foldl (fun acc a => 10 * acc + a) 0 dl := by
  induction dl with
  | nil => intro v; simp
  | cons a dl ih =>
    intro v
    simp only [List.foldl_cons, List.length_cons]
    rw [ih (10 * v + a), ih (10 * 0 + a)]
    ring

lemma foldl_step_reverse (l : List Nat) : ∀ v : Nat,
    List.foldl (fun acc a => 10 * acc + a) v l.reverse
      = v * 10 ^ l.length + ofDigitsLE l := by
  induction l with
  | nil => intro v; simp [ofDigitsLE]
  | cons a l ih =>
    intro v
    simp only [List.reverse_cons, List.foldl_append, List.foldl_cons,
      List.foldl_nil, List.length_cons, ofDigitsLE]
    rw [ih v]
    ring

lemma foldl_step_zeros (k : Nat) :
    List.foldl (fun acc a => 10 * acc + a) 0 (List.replicate k 0) = 0 := by
  induction k with
  | zero => rfl
  | succ k ih => simpa [List.replicate_succ] using ih

lemma decDigitsBE_pos (c : Nat) (hc : 0 < c) :
    decDigitsBE c = (natDigits c).reverse.map digitChar := by
  rw [decDigitsBE, if_neg (by omega : ¬ c = 0)]

lemma decDigitsBE_length (c : Nat) (hc : 0 < c) :
    (decDigitsBE c).length = numDigits c := by
  rw [decDigitsBE_pos c hc, List.length_map, List.length_reverse, numDigits]

lemma foldl_natDigits (c : Nat) (h100 : c < 10 ^ 100) :
    List.foldl (fun acc a => 10 * acc + a) 0 (natDigits c).reverse = c := by
  rw [foldl_step_reverse, natDigits_val c h100]
  simp

lemma readDigits_coeff (c : Nat) (hc : 0 < c) (h100 : c < 10 ^ 100)
    (rest : List Char) (hrest : notDigitStart rest) (v n : Nat) :
    readDigits (decDigitsBE c ++ rest) v n
      = (v * 10 ^ numDigits c + c, n + numDigits c, rest) := by
  rw [decDigitsBE_pos c hc,
    readDigits_digits _ (fun a ha => natDigits_lt c a (List.mem_reverse.1 ha))
      rest v n hrest,
    foldl_step_shift, foldl_natDigits c h100, List.length_reverse]
  rfl

/-- Parsing inverts rendering on the values `format_amount` produces on the
exact domain: positive coefficient, non-positive exponent (both within the
fuel bound). -/
lemma parse_decToSciString (c : Nat) (e : Int) (hc : 0 < c)
    (hc100 : c < 10 ^ 100) (he : e ≤ 0) (heb : -(10 ^ 90 : Int) ≤ e) :
    parsePyDecimal (decToSciString ⟨c, e⟩) = some ⟨c, e⟩ := by
  have hL : 1 ≤ numDigits c := numDigits_pos c hc hc100
  have hdsl : (decDigitsBE c).length = numDigits c := decDigitsBE_length c hc
  by_cases he0 : e = 0
  · subst he0
    have hstr : decToSciString ⟨c, 0⟩ = decDigitsBE c := by
      simp only [decToSciString, hdsl]
      split_ifs with h1 h2 <;> first | rfl | (exfalso; omega)
    rw [hstr]
    have hread : readDigits (decDigitsBE c) 0 0 = (c, numDigits c, []) := by
      have := readDigits_coeff c hc hc100 [] trivial 0 0
      simpa using this
    simp only [parsePyDecimal, hread]
    simp [hL]
  · have hdotnone : charDigitVal '.' = none := by decide
    have hEnone : charDigitVal 'E' = none := by decide
    have hdl10 : ∀ a ∈ (natDigits c).reverse, a < 10 :=
      fun a ha => natDigits_lt c a (List.mem_reverse.1 ha)
    have hfoldc : List.foldl (fun acc a => 10 * acc + a) 0 (natDigits c).reverse
        = c := foldl_natDigits c hc100
    have hLlen : (natDigits c).reverse.length = numDigits c :=
      (List.length_reverse _).trans rfl
    by_cases hadj : (-6 : Int) ≤ e + (numDigits c : Int) - 1
    · -- plain notation with a decimal point
      by_cases hfL : (-e).toNat < numDigits c
      · -- B1: f < L, digits split around the point
        set L := numDigits c with hLdef
        set f := (-e).toNat with hfdef
        have hstr : decToSciString ⟨c, e⟩
            = (decDigitsBE c).take (L - f) ++ '.' :: (decDigitsBE c).drop (L - f) := by
          simp only [decToSciString, hdsl]
          split_ifs with h1 h2 h3 <;> first | rfl | (exfalso; omega)
        rw [hstr]
        set dl1 := (natDigits c).reverse.take (L - f) with hdl1
        set dl2 := (natDigits c).reverse.drop (L - f) with hdl2
        have htake : (decDigitsBE c).take (L - f) = dl1.map digitChar := by
          rw [decDigitsBE_pos c hc, hdl1, List.map_take]
        have hdrop : (decDigitsBE c).drop (L - f) = dl2.map digitChar := by
          rw [decDigitsBE_pos c hc, hdl2, List.map_drop]
        have hlen1 : dl1.length = L - f := by
          rw [hdl1, List.length_take, hLlen]
          omega
        have hlen2 : dl2.length = f := by
          rw [hdl2, List.length_drop, hLlen]
          omega
        have hsplitv : (List.foldl (fun acc a => 10 * acc + a) 0 dl1) * 10 ^ f
            + List.foldl (fun acc a => 10 * acc + a) 0 dl2 = c := by
          have happ : dl1 ++ dl2 = (natDigits c).reverse :=
            List.take_append_drop _ _
          have h1 : List.foldl (fun acc a => 10 * acc + a) 0 (dl1 ++ dl2) = c := by
            rw [happ, hfoldc]
          rw [List.foldl_append, foldl_step_shift dl2, hlen2] at h1
          exact h1
        have hread1 : readDigits (dl1.map digitChar
              ++ '.' :: (decDigitsBE c).drop (L - f)) 0 0
            = (List.foldl (fun acc a => 10 * acc + a) 0 dl1, L - f,
               '.' :: (decDigitsBE c).drop (L - f)) := by
          rw [readDigits_digits dl1
            (fun a ha => hdl10 a (List.take_subset _ _ ha)) _ 0 0
            (by simp [notDigitStart, hdotnone]), hlen1]
          simp only [Nat.zero_add]
        have hread2 : readDigits (dl2.map digitChar) 0 0
            = (List.foldl (fun acc a => 10 * acc + a) 0 dl2, f, []) := by
          have := readDigits_digits dl2
            (fun a ha => hdl10 a (List.drop_subset _ _ ha)) [] 0 0 trivial
          rw [List.append_nil] at this
          rw [this, hlen2]
          simp
        have hcond : 1 ≤ L - f + f := by omega
        have hexpe : -((f : Nat) : Int) = e := by omega
        rw [htake]
        simp only [parsePyDecimal, hread1]
        rw [hdrop]
        simp [hread2, hcond, hsplitv, hexpe]
      · -- B2: f ≥ L, leading "0." and zero padding
        set L := numDigits c with hLdef
        set f := (-e).toNat with hfdef
        have hstr : decToSciString ⟨c, e⟩
            = '0' :: '.' :: (List.replicate (f - L) '0' ++ decDigitsBE c) := by
          simp only [decToSciString, hdsl]
          split_ifs with h1 h2 h3 <;> first | rfl | (exfalso; omega)
        rw [hstr]
        have hzmap : List.replicate (f - L) '0' ++ decDigitsBE c
            = (List.replicate (f - L) 0 ++ (natDigits c).reverse).map digitChar := by
          rw [List.map_append, List.map_replicate, decDigitsBE_pos c hc]
          rfl
        have hfold0 : List.foldl (fun acc a => 10 * acc + a) 0
            (List.replicate (f - L) 0 ++ (natDigits c).reverse) = c := by
          rw [List.foldl_append, foldl_step_zeros, hfoldc]
        have hread2 : readDigits ((List.replicate (f - L) 0
              ++ (natDigits c).reverse).map digitChar) 0 0
            = (c, f, []) := by
          have hall : ∀ a ∈ List.replicate (f - L) 0 ++ (natDigits c).reverse,
              a < 10 := by
            intro a ha
            rcases List.mem_append.1 ha with h | h
            · have := List.eq_of_mem_replicate h
              omega
            · exact hdl10 a h
          have := readDigits_digits _ hall [] 0 0 trivial
          rw [List.append_nil] at this
          rw [this, hfold0, List.length_append, List.length_replicate, hLlen]
          refine congrArg _ ?_
          refine congrArg₂ _ ?_ rfl
          omega
        rw [hzmap]
        have hread1 : readDigits ('0' :: '.' :: (List.replicate (f - L) 0
              ++ (natDigits c).reverse).map digitChar) 0 0
            = (0, 1, '.' :: (List.replicate (f - L) 0
                ++ (natDigits c).reverse).map digitChar) := by
          have h0 : charDigitVal '0' = some 0 := by decide
          simp [readDigits, h0, hdotnone]
        have hcond : 1 ≤ 1 + f := by omega
        have hexpe : -((f : Nat) : Int) = e := by omega
        simp only [parsePyDecimal, hread1]
        simp only [hread2]
        simp [hcond, hexpe]
    · -- C: scientific notation with a negative exponent
      have hadjneg : e + (numDigits c : Int) - 1 < 0 := by omega
      set k := (-(e + (numDigits c : Int) - 1)).toNat with hkdef
      have hk : 0 < k := by omega
      have hk100 : k < 10 ^ 100 := by
        have h90 : (10 : Int) ^ 90 ≤ 10 ^ 100 := by norm_num
        have hkle : (k : Int) = -(e + (numDigits c : Int) - 1) := by omega
        have : (k : Int) < 10 ^ 100 := by omega
        exact_mod_cast this
      have hkL : 1 ≤ numDigits k := numDigits_pos k hk hk100
      have hexp : parseExpPart ('-' :: decDigitsBE k) = some (-(k : Int)) := by
        have hreadk : readDigits (decDigitsBE k) 0 0 = (k, numDigits k, []) := by
          have := readDigits_coeff k hk hk100 [] trivial 0 0
          simpa using this
        simp [parseExpPart, hreadk, hkL]
      obtain ⟨a0, dl', hdlcons⟩ :=
        List.exists_cons_of_ne_nil (show (natDigits c).reverse ≠ [] by
          intro hcontra
          rw [hcontra] at hLlen
          simp at hLlen
          omega)
      have ha0 : a0 < 10 := hdl10 a0 (by rw [hdlcons]; simp)
      cases dl' with
      | nil =>
        -- C1: a single digit before `E`
        have hL1 : numDigits c = 1 := by
          rw [← hLlen, hdlcons]
          rfl
        have hstr : decToSciString ⟨c, e⟩
            = decDigitsBE c ++ 'E' :: '-' :: decDigitsBE k := by
          simp only [decToSciString, hdsl]
          split_ifs with h1 h2 h3 h4 <;>
            first
              | (exfalso; omega)
              | (rw [decDigitsBE_pos c hc, hdlcons]; rfl)
        rw [hstr]
        have hread1 : readDigits (decDigitsBE c ++ 'E' :: '-' :: decDigitsBE k) 0 0
            = (c, numDigits c, 'E' :: '-' :: decDigitsBE k) := by
          have := readDigits_coeff c hc hc100 ('E' :: '-' :: decDigitsBE k)
            (by simp [notDigitStart, hEnone]) 0 0
          simpa using this
        have hEdot : ¬('E' : Char) = '.' := by decide
        have hexpe : -((k : Nat) : Int) = e := by omega
        simp [parsePyDecimal, hread1, hEdot, hL, hexp, hexpe]
      | cons b dl2 =>
        -- C2: digits split as d.ddd before `E`
        have hL2 : numDigits c = dl2.length + 2 := by
          rw [← hLlen, hdlcons]
          simp
        have hstr : decToSciString ⟨c, e⟩
            = digitChar a0 :: '.'
              :: ((b :: dl2).map digitChar ++ 'E' :: '-' :: decDigitsBE k) := by
          simp only [decToSciString, hdsl]
          split_ifs with h1 h2 h3 h4 <;>
            first
              | (exfalso; omega)
              | (rw [decDigitsBE_pos c hc, hdlcons]; rfl)
        rw [hstr]
        have hva : readDigits (digitChar a0 :: '.'
              :: ((b :: dl2).map digitChar ++ 'E' :: '-' :: decDigitsBE k)) 0 0
            = (a0, 1, '.' :: ((b :: dl2).map digitChar ++ 'E' :: '-' :: decDigitsBE k)) := by
          have := readDigits_digits [a0] (by simpa using ha0)
            ('.' :: ((b :: dl2).map digitChar ++ 'E' :: '-' :: decDigitsBE k))
            0 0 (by simp [notDigitStart, hdotnone])
          simpa [readDigits] using this
        have hvb : readDigits ((b :: dl2).map digitChar
              ++ 'E' :: '-' :: decDigitsBE k) 0 0
            = (List.foldl (fun acc a => 10 * acc + a) 0 (b :: dl2),
               dl2.length + 1, 'E' :: '-' :: decDigitsBE k) := by
          have := readDigits_digits (b :: dl2)
            (fun a ha => hdl10 a (by rw [hdlcons]; exact List.mem_cons_of_mem _ ha))
            ('E' :: '-' :: decDigitsBE k) 0 0 (by simp [notDigitStart, hEnone])
          rw [this]
          simp
        have hcoeff : a0 * 10 ^ (dl2.length + 1)
            + List.foldl (fun acc a => 10 * acc + a) 0 (b :: dl2) = c := by
          have hsplit : List.foldl (fun acc a => 10 * acc + a) a0 (b :: dl2)
              = a0 * 10 ^ (dl2.length + 1)
                + List.foldl (fun acc a => 10 * acc + a) 0 (b :: dl2) := by
            have := foldl_step_shift (b :: dl2) a0
            simpa using this
          have hfold : List.foldl (fun acc a => 10 * acc + a) a0 (b :: dl2) = c := by
            have h0 : List.foldl (fun acc a => 10 * acc + a) 0 (a0 :: b :: dl2) = c := by
              rw [← hdlcons, hfoldc]
            simpa [List.foldl_cons] using h0
          rw [← hsplit, hfold]
        have hcond : 1 ≤ 1 + (dl2.length + 1) := by omega
        have hexpe : -((k : Nat) : Int) - ((dl2.length + 1 : Nat) : Int) = e := by
          push_cast
          omega
        simp only [parsePyDecimal, hva]
        simp only [hvb]
        simp [hcond, hexp]
        refine ⟨?_, by omega⟩
        have h1 : List.foldl (fun acc a => 10 * acc + a) b dl2
            = List.foldl (fun acc a => 10 * acc + a) 0 (b :: dl2) := by
          simp
        rw [h1]
        exact hcoeff

/-- Multiplying back by `10 ^ d` and truncating recovers `x` exactly: the
product's coefficient can exceed 28 digits, but the digits dropped by the
context rounding are all trailing zeros, so no information is lost. -/
lemma decimal_mul_pow10_int (c : Nat) (e : Int) (d x : Nat) (hc : 0 < c)
    (hD : numDigits c ≤ 28) (hd : d ≤ 18) (he : e ≤ 0) (hed : 0 ≤ e + d)
    (hval : c * 10 ^ (e + d).toNat = x) (hx28 : x < 10 ^ 28) :
    int_of_decimal (decimal_mul_pow10 ⟨c, e⟩ d) = x := by
  set t' := (e + (d : Int)).toNat with ht'def
  have ht'e : (t' : Int) = e + d := Int.toNat_of_nonneg hed
  have ht'd : t' ≤ d := by omega
  have hxpos : 0 < x := by
    rw [← hval]
    exact Nat.mul_pos hc (Nat.pos_pow_of_pos _ (by norm_num))
  have hx100 : x < 10 ^ 100 := by
    calc x < 10 ^ 28 := hx28
      _ ≤ 10 ^ 100 := Nat.pow_le_pow_right (by norm_num) (by norm_num)
  have hc100 : c < 10 ^ 100 := by
    have : c ≤ x := by
      rw [← hval]
      exact Nat.le_mul_of_pos_right c (Nat.pos_pow_of_pos _ (by norm_num))
    omega
  have hpx : c * 10 ^ d = x * 10 ^ (d - t') := by
    rw [← hval, mul_assoc, ← pow_add]
    refine congrArg _ ?_
    refine congrArg _ ?_
    omega
  have hp100 : c * 10 ^ d < 10 ^ 100 := by
    rw [hpx]
    calc x * 10 ^ (d - t') < 10 ^ 28 * 10 ^ (d - t') :=
          Nat.mul_lt_mul_of_lt_of_le hx28 (le_refl _)
            (Nat.pos_pow_of_pos _ (by norm_num))
      _ = 10 ^ (28 + (d - t')) := by rw [pow_add]
      _ ≤ 10 ^ 100 := Nat.pow_le_pow_right (by norm_num) (by omega)
  have hDp : numDigits (c * 10 ^ d) = numDigits c + d :=
    numDigits_mul_pow10 c d hc hp100
  have hDt : numDigits c + t' ≤ 28 := by
    have hxd : numDigits x = numDigits c + t' := by
      rw [← hval]
      exact numDigits_mul_pow10 c t' hc (by rw [hval]; exact hx100)
    have : numDigits x ≤ 28 := by rw [numDigits_le_iff x 28 hx100]; omega
    omega
  rw [decimal_mul_pow10]
  simp only [hDp, DECIMAL_PREC]
  by_cases hfit : numDigits c + d ≤ 28
  · rw [if_pos hfit, int_of_decimal]
    by_cases he0 : (0 : Int) ≤ e
    · have he00 : e = 0 := by omega
      rw [if_pos he0, he00]
      simp only [Int.toNat_zero, pow_zero, mul_one]
      rw [hpx]
      have : d - t' = 0 := by omega
      rw [this, pow_zero, mul_one]
    · rw [if_neg he0]
      have hnege : (-e).toNat = d - t' := by omega
      simp only [hnege]
      rw [hpx, Nat.mul_div_cancel x (Nat.pos_pow_of_pos _ (by norm_num))]
  · rw [if_neg hfit]
    have hdrop_le : numDigits c + d - 28 ≤ d := by omega
    have hdrop_pos : 1 ≤ numDigits c + d - 28 := by omega
    have hpsplit : c * 10 ^ d
        = c * 10 ^ (d - (numDigits c + d - 28)) * 10 ^ (numDigits c + d - 28) := by
      rw [mul_assoc, ← pow_add]
      refine congrArg _ ?_
      refine congrArg _ ?_
      omega
    have hr : c * 10 ^ d % 10 ^ (numDigits c + d - 28) = 0 := by
      rw [hpsplit]
      exact Nat.mul_mod_left _ _
    have hq : c * 10 ^ d / 10 ^ (numDigits c + d - 28)
        = c * 10 ^ (d - (numDigits c + d - 28)) := by
      rw [hpsplit]
      exact Nat.mul_div_cancel _ (Nat.pos_pow_of_pos _ (by norm_num))
    have hhalf : 0 < 10 ^ (numDigits c + d - 28) / 2 := by
      have h10 : 10 ≤ 10 ^ (numDigits c + d - 28) := by
        calc 10 = 10 ^ 1 := (pow_one 10).symm
          _ ≤ 10 ^ (numDigits c + d - 28) :=
            Nat.pow_le_pow_right (by norm_num) hdrop_pos
      omega
    rw [hr, hq]
    rw [if_neg (show ¬(10 ^ (numDigits c + d - 28) / 2 < 0 ∨
        (0 = 10 ^ (numDigits c + d - 28) / 2 ∧
          c * 10 ^ (d - (numDigits c + d - 28)) % 2 = 1)) from by
      intro hcontra
      rcases hcontra with h | ⟨h1, h2⟩
      · omega
      · omega)]
    have hq28 : c * 10 ^ (d - (numDigits c + d - 28)) < 10 ^ 28 := by
      have hqd : d - (numDigits c + d - 28) = 28 - numDigits c := by omega
      rw [hqd]
      calc c * 10 ^ (28 - numDigits c)
          < 10 ^ numDigits c * 10 ^ (28 - numDigits c) :=
            Nat.mul_lt_mul_of_lt_of_le (numDigits_lt_pow c hc100) (le_refl _)
              (Nat.pos_pow_of_pos _ (by norm_num))
        _ = 10 ^ (numDigits c + (28 - numDigits c)) := by rw [pow_add]
        _ ≤ 10 ^ 28 := Nat.pow_le_pow_right (by norm_num) (by omega)
    rw [if_neg (by omega : ¬ c * 10 ^ (d - (numDigits c + d - 28)) = 10 ^ 28)]
    rw [int_of_decimal]
    have hqx : c * 10 ^ (d - (numDigits c + d - 28))
        = x * 10 ^ (28 - numDigits c - t') := by
      have hqd : d - (numDigits c + d - 28) = 28 - numDigits c := by omega
      rw [hqd, ← hval, mul_assoc, ← pow_add]
      refine congrArg _ ?_
      refine congrArg _ ?_
      omega
    by_cases hez : (0 : Int) ≤ e + (numDigits c + d - 28 : Nat)
    · have hez0 : e + ((numDigits c + d - 28 : Nat) : Int) = 0 := by
        push_cast
        omega
      rw [if_pos hez, hez0]
      simp only [Int.toNat_zero, pow_zero, mul_one]
      rw [hqx]
      have : 28 - numDigits c - t' = 0 := by
        have : ((28 : Nat) : Int) - numDigits c - t' = 0 := by push_cast at hez0 ⊢; omega
        omega
      rw [this, pow_zero, mul_one]
    · rw [if_neg hez]
      have hne : (-(e + ((numDigits c + d - 28 : Nat) : Int))).toNat
          = 28 - numDigits c - t' := by
        push_cast
        omega
      rw [hne, hqx, Nat.mul_div_cancel x (Nat.pos_pow_of_pos _ (by norm_num))]

/-- C1 (amended): the round-trip `parse_amount (format_amount x d) d = x`
holds for every `x < 10 ^ 28` (at most 28 significant digits, the default
context precision) and every `d ≤ 18`. -/
theorem format_amount_parse_amount_roundtrip (x d : Nat)
    (hx : x < 10 ^ 28) (hd : d ≤ 18) :
    parse_amount (format_amount x d) d = some x := by
  rcases Nat.eq_zero_or_pos x with rfl | hxpos
  · have hdiv0 : decimal_div_pow10 0 d = ⟨0, 0⟩ := by
      rw [decimal_div_pow10, if_pos rfl]
    have hstr0 : decToSciString ⟨0, 0⟩ = ['0'] := by decide
    have hparse0 : parsePyDecimal ['0'] = some ⟨0, 0⟩ := by decide
    have hmul0 : decimal_mul_pow10 ⟨0, 0⟩ d = ⟨0, 0⟩ := by
      rw [decimal_mul_pow10]
      simp [show numDigits 0 = 0 from rfl, DECIMAL_PREC]
    rw [format_amount, hdiv0, hstr0, parse_amount, hparse0]
    simp only [Option.map_some', hmul0]
    rfl
  · obtain ⟨c, t', ht'd, hdiv, hval, hcpos, hD⟩ :=
      decimal_div_pow10_exact x d hxpos hx hd
    have hc100 : c < 10 ^ 100 := by
      have hcle : c ≤ x := by
        rw [← hval]
        exact Nat.le_mul_of_pos_right c (Nat.pos_pow_of_pos _ (by norm_num))
      have : (10 : Nat) ^ 28 ≤ 10 ^ 100 :=
        Nat.pow_le_pow_right (by norm_num) (by norm_num)
      omega
    have he : (t' : Int) - d ≤ 0 := by omega
    have heb : -(10 ^ 90 : Int) ≤ (t' : Int) - d := by
      have : (18 : Int) ≤ 10 ^ 90 := by norm_num
      omega
    rw [format_amount, hdiv, parse_amount,
      parse_decToSciString c ((t' : Int) - d) hcpos hc100 he heb]
    simp only [Option.map_some', Option.some.injEq]
    refine decimal_mul_pow10_int c ((t' : Int) - d) d x hcpos hD hd he
      (by omega) ?_ hx
    have : ((t' : Int) - d + d).toNat = t' := by omega
    rw [this, hval]

/-- Witness for `format_amount_parse_amount_roundtrip`:
`format_amount 123456789 9 = "0.123456789"` parses back to `123456789`. -/
theorem format_amount_parse_amount_roundtrip_witness :
    parse_amount (format_amount 123456789 9) 9 = some 123456789 :=
  format_amount_parse_amount_roundtrip 123456789 9 (by norm_num) (by norm_num)

/-- C1 counterexample to the claim as stated: at `x = 10^28 + 1` (29
significant digits) and `d = 0`, Python's default 28-digit context rounds the
quotient, `format_amount` returns `"1.000000000000000000000000000E+28"`, and
the round-trip loses the final `1`: parsing back yields `10^28 ≠ 10^28 + 1`. -/
theorem format_amount_roundtrip_counterexample :
    format_amount (10 ^ 28 + 1) 0
      = "1.000000000000000000000000000E+28".data ∧
    parse_amount (format_amount (10 ^ 28 + 1) 0) 0 = some (10 ^ 28) ∧
    (10 ^ 28 : Nat) ≠ 10 ^ 28 + 1 := by
  refine ⟨by decide, by decide, by decide⟩

end MartinaAI
